import Mathlib

/-!
Shallow embedding of `scripts/update_changelog.py` (LifeSmart Calculator
changelog generator).  Strings are modelled as Lean `String` / `List Char`;
Python string methods (`lower`, `strip`, `split`, `startswith`, `in`,
`str.find`) and the two fixed regular expressions are embedded as explicit
recursive functions.  Definitions keep the names of the source where possible.
-/

namespace ChangelogSpec

/-- ASCII lower-casing of one character, modelling `str.lower` on the ASCII
commit messages the script handles. -/
def lowCh (c : Char) : Char :=
  if 'A' ≤ c ∧ c ≤ 'Z' then Char.ofNat (c.toNat + 32) else c

/-- ASCII upper-casing of one character, modelling `str.upper`. -/
def upCh (c : Char) : Char :=
  if 'a' ≤ c ∧ c ≤ 'z' then Char.ofNat (c.toNat - 32) else c

/-- `str.lower` on a character list. -/
def pyLower (l : List Char) : List Char := l.map lowCh

/-- The whitespace class of the Python `str.strip` / regex `\s` (ASCII part). -/
def isPySpace (c : Char) : Bool :=
  c == ' ' || c == '\t' || c == '\n' || c == '\r' || c == '\x0b' || c == '\x0c'

/-- The digit class of the regex `\d` (ASCII part). -/
def isDigitCh (c : Char) : Bool := '0' ≤ c && c ≤ '9'

/-- `str.strip`: drop whitespace from both ends. -/
def pyStrip (l : List Char) : List Char :=
  ((l.dropWhile isPySpace).reverse.dropWhile isPySpace).reverse

/-- `message[0].upper() + message[1:]` (identity on the empty string). -/
def capFirst (l : List Char) : List Char :=
  match l with
  | [] => []
  | c :: r => upCh c :: r

/-- The Python substring test `p in s` on character lists. -/
def containsL (p : List Char) : List Char → Bool
  | [] => p.isEmpty
  | c :: rest => p.isPrefixOf (c :: rest) || containsL p rest

/-- Index of the first occurrence of `needle` (as `Option`), scanning left
to right; models the core of `str.find`. -/
def findIdx (needle : List Char) : List Char → Option Nat
  | [] => if needle.isEmpty then some 0 else none
  | c :: rest =>
    if needle.isPrefixOf (c :: rest) then some 0
    else (findIdx needle rest).map (· + 1)

/-- `hay.find(needle, start)` returning `none` instead of `-1`. -/
def pyFindFrom (needle hay : List Char) (start : Nat) : Option Nat :=
  (findIdx needle (hay.drop start)).map (· + start)

/-- `str.split(sep)` for a one-character separator. -/
def pySplit (sep : Char) : List Char → List (List Char)
  | [] => [[]]
  | c :: rest =>
    match pySplit sep rest with
    | [] => [[]]
    | h :: t => if c = sep then [] :: h :: t else (c :: h) :: t

/-- Number of positions of `s` at which the pattern `p` occurs. -/
def countOcc (p : List Char) : List Char → Nat
  | [] => 0
  | c :: rest => (if p.isPrefixOf (c :: rest) then 1 else 0) + countOcc p rest

/-- `misMatch p s` holds when `p` provably fails to be a prefix of
`s ++ q` for every continuation `q`: a definite mismatch happens inside `s`. -/
def misMatch : List Char → List Char → Bool
  | [], _ => false
  | _ :: _, [] => false
  | x :: xt, y :: yt => (x != y) || misMatch xt yt

/-- Every nonempty suffix of `a` definitely mismatches `p`, so no occurrence
of `p` can start inside `a`, whatever follows `a`. -/
def failsIn (p : List Char) : List Char → Bool
  | [] => true
  | c :: rest => misMatch p (c :: rest) && failsIn p rest

/-- Decimal value of one digit character. -/
def digitVal (c : Char) : Nat := c.toNat - '0'.toNat

/-- Decimal value of a digit string, as `int()` computes it. -/
def digitsVal (l : List Char) : Nat := l.foldl (fun a c => 10 * a + digitVal c) 0

/-- One attempt of the regex `(\d+)\s+<w>` anchored at the start of `s`:
maximal digit run, then at least one whitespace, then the literal `w`.
Returns the value of the digit group.  (Maximal munch is equivalent to the
backtracking regex here because the three character classes of the pattern
are pairwise disjoint at their boundaries.) -/
def matchAt (w : List Char) (s : List Char) : Option Nat :=
  let ds := s.takeWhile isDigitCh
  let r1 := s.dropWhile isDigitCh
  if ds.isEmpty then none
  else
    let sp := r1.takeWhile isPySpace
    let r2 := r1.dropWhile isPySpace
    if sp.isEmpty then none
    else if w.isPrefixOf r2 then some (digitsVal ds) else none

/-- Embeds `re.search` for the pattern digits-spaces-word: leftmost match wins. -/
def searchNum (w : List Char) : List Char → Option Nat
  | [] => none
  | c :: rest =>
    match matchAt w (c :: rest) with
    | some n => some n
    | none => searchNum w rest

/-- An entry of the `COMMIT_TYPES` table: key, emoji label, description. -/
abbrev Entry := String × String × String

/-- The `COMMIT_TYPES` dict of the script, in its insertion order. -/
def COMMIT_TYPES : List Entry := [
  ("feat", "✨ Added", "New features and enhancements"),
  ("fix", "🐛 Fixed", "Bug fixes and improvements"),
  ("docs", "📚 Documentation", "Documentation updates"),
  ("style", "🎨 Changed", "Code style and formatting changes"),
  ("refactor", "🔧 Changed", "Code refactoring and restructuring"),
  ("perf", "🚀 Performance", "Performance improvements"),
  ("test", "🧪 Testing", "Test additions and improvements"),
  ("chore", "🔧 Changed", "Maintenance tasks and chores"),
  ("security", "🛡️ Security", "Security improvements"),
  ("build", "🔧 Changed", "Build system changes"),
  ("ci", "🔧 Changed", "CI/CD pipeline changes"),
  ("revert", "🔄 Changed", "Reverted changes"),
  ("remove", "🗑️ Removed", "Removed features and cleanup"),
  ("deps", "📦 Changed", "Dependency updates")]

/-- The entry returned by every default branch of `categorize_commit`. -/
def choreEntry : Entry := ("chore", "🔧 Changed", "Maintenance tasks and chores")

def featWords : List String :=
  ["add", "new", "feature", "implement", "create", "introduce", "calculator", "chart"]
def fixWords : List String := ["fix", "bug", "issue", "error", "resolve", "crash"]
def docsWords : List String := ["doc", "readme", "comment", "changelog", "update readme"]
def styleWords : List String :=
  ["style", "format", "indent", "ui", "ux", "css", "styling", "tailwind"]
def refactorWords : List String := ["refactor", "restructure", "clean", "optimize", "enhance"]
def perfWords : List String := ["perf", "performance", "speed", "optimize"]
def testWords : List String := ["test", "spec", "coverage", "testing"]
def securityWords : List String := ["security", "vulnerability", "auth", "protect"]
def removeWords : List String := ["remove", "delete", "cleanup", "deprecate", "drop"]
def depsWords : List String := ["deps", "dependency", "package", "npm", "yarn", "install"]
def updateWords : List String := ["update", "change", "modify", "improve", "enhance"]

/-- `word in message` for a trigger word. -/
def hasWord (m : List Char) (w : String) : Bool := containsL w.data m

/-- The startswith test of the prefix loop for a table entry, on type plus colon. -/
def prefTest (m : List Char) (e : Entry) : Bool :=
  (e.1.data ++ [':']).isPrefixOf m

/-- The `elif` keyword-heuristic chain of `categorize_commit`
(source lines 219-243), on the lower-cased message. -/
def keywordCat (m : List Char) : Entry :=
  if featWords.any (hasWord m) then ("feat", "✨ Added", "New features and enhancements")
  else if fixWords.any (hasWord m) then ("fix", "🐛 Fixed", "Bug fixes and improvements")
  else if docsWords.any (hasWord m) then ("docs", "📚 Documentation", "Documentation updates")
  else if styleWords.any (hasWord m) then
    ("style", "🎨 Changed", "Code style and formatting changes")
  else if refactorWords.any (hasWord m) then
    ("refactor", "🔧 Changed", "Code refactoring and restructuring")
  else if perfWords.any (hasWord m) then ("perf", "🚀 Performance", "Performance improvements")
  else if testWords.any (hasWord m) then ("test", "🧪 Testing", "Test additions and improvements")
  else if securityWords.any (hasWord m) then ("security", "🛡️ Security", "Security improvements")
  else if removeWords.any (hasWord m) then
    ("remove", "🗑️ Removed", "Removed features and cleanup")
  else if depsWords.any (hasWord m) then ("deps", "📦 Changed", "Dependency updates")
  else if updateWords.any (hasWord m) then choreEntry
  else choreEntry

/-- `categorize_commit` (source lines 210-243): conventional-commit prefix
check over the `COMMIT_TYPES` table first, then the keyword heuristics. -/
def categorize_commit (message : String) : Entry :=
  let m := pyLower message.data
  match COMMIT_TYPES.find? (prefTest m) with
  | some e => e
  | none => keywordCat m

/-- Spec-side classifier for the keyword phase, following the spec wording:
a single fixed priority list, first category whose trigger-word list has a
member in the message wins, defaulting to chore. -/
def PRIORITY : List (List String × Entry) := [
  (featWords, ("feat", "✨ Added", "New features and enhancements")),
  (fixWords, ("fix", "🐛 Fixed", "Bug fixes and improvements")),
  (docsWords, ("docs", "📚 Documentation", "Documentation updates")),
  (styleWords, ("style", "🎨 Changed", "Code style and formatting changes")),
  (refactorWords, ("refactor", "🔧 Changed", "Code refactoring and restructuring")),
  (perfWords, ("perf", "🚀 Performance", "Performance improvements")),
  (testWords, ("test", "🧪 Testing", "Test additions and improvements")),
  (securityWords, ("security", "🛡️ Security", "Security improvements")),
  (removeWords, ("remove", "🗑️ Removed", "Removed features and cleanup")),
  (depsWords, ("deps", "📦 Changed", "Dependency updates")),
  (updateWords, ("chore", "🔧 Changed", "Maintenance tasks and chores"))]

/-- Spec-side: first category of `PRIORITY` whose word list matches. -/
def priorityClassify (m : List Char) : Entry :=
  match PRIORITY.find? (fun pr => pr.1.any (hasWord m)) with
  | some pr => pr.2
  | none => choreEntry

/-- The keys of the regex alternation in `clean_commit_message`
(source line 248), in the written order. -/
def TYPE_KEYS : List String :=
  ["feat", "fix", "docs", "style", "refactor", "perf", "test", "chore",
   "security", "build", "ci", "revert", "remove", "deps"]

/-- Embeds the `re.sub` call removing a leading type-colon prefix (IGNORECASE):
at most one leading `type:` plus following whitespace is removed.  The 14
alternatives are pairwise non-overlapping, so the regex is equivalent to
finding the one key whose `type:` case-insensitively heads the message. -/
def subRegexPre (m : List Char) : List Char :=
  match TYPE_KEYS.find? (fun t => (t.data ++ [':']).isPrefixOf (pyLower m)) with
  | some t => (m.drop (t.data.length + 1)).dropWhile isPySpace
  | none => m

/-- The `prefixes_to_remove` literal list of `clean_commit_message`
(source lines 251-254). -/
def LIST_PREFS : List String :=
  ["feat:", "fix:", "docs:", "style:", "refactor:", "test:", "chore:",
   "feat(", "fix(", "docs(", "style(", "refactor(", "test(", "chore("]

/-- The `for prefix in prefixes_to_remove: ... break` loop: the first listed
literal that case-insensitively heads the message is cut off and the rest is
`strip`ped. -/
def subListPre (m : List Char) : List Char :=
  match LIST_PREFS.find? (fun p => p.data.isPrefixOf (pyLower m)) with
  | some p => pyStrip (m.drop p.data.length)
  | none => m

/-- `clean_commit_message` (source lines 245-265). -/
def clean_commit_message (message : String) : String :=
  String.mk (capFirst (subListPre (subRegexPre message.data)))

def commaSep : String := ", "
def statsOpen : String := " `"
def statsClose : String := "`"
def plusSign : String := "+"
def minusSign : String := "-"

/-- `format_commit_with_stats` (source lines 267-282). -/
def format_commit_with_stats (message : String) (insertions deletions : Nat) : String :=
  let cleanMsg := clean_commit_message message
  if insertions > 0 || deletions > 0 then
    let parts : List String :=
      (if insertions > 0 then [plusSign ++ toString insertions] else []) ++
      (if deletions > 0 then [minusSign ++ toString deletions] else [])
    cleanMsg ++ statsOpen ++ String.intercalate commaSep parts ++ statsClose
  else cleanMsg

/-- A commit record, restricted to the fields the rendering pipeline reads
(`message`, `insertions`, `deletions`). -/
structure Commit where
  message : String
  insertions : Nat
  deletions : Nat

def emptyStr : String := ""
def nlStr : String := "\n"
def nl2 : String := "\n\n"
def hdrOpen : String := "## ["
def hdrMid : String := "] - "
def headPre : String := "### "
def spaceStr : String := " "
def bulletPre : String := "- "
def totalPre : String := "**Total Changes:** "
def totalSuf : String := " commits\n\n"
def sepLine : String := "---\n\n"
def emptyBody : String :=
  "\n\n### ✨ Added\n- N/A\n\n### 🔧 Changed\n- N/A\n\n### 🐛 Fixed\n- N/A\n\n---\n\n"

/-- One bullet of a release section. -/
def commitLine (c : Commit) : String :=
  bulletPre ++ format_commit_with_stats c.message c.insertions c.deletions ++ nlStr

/-- The commits the `defaultdict` groups under a given type key, in input
order (the loop appends in iteration order, so the group is a filter). -/
def groupOf (commits : List Commit) (key : String) : List Commit :=
  commits.filter (fun c => (categorize_commit c.message).1 == key)

/-- `generate_release_section` (source lines 284-316), with the string
accumulation of the Python loops embedded as left folds. -/
def generate_release_section (tag : String) (commits : List Commit)
    (release_date : String) : String :=
  if commits.isEmpty then
    hdrOpen ++ tag ++ hdrMid ++ release_date ++ emptyBody
  else
    let body := COMMIT_TYPES.foldl (fun acc e =>
      if (groupOf commits e.1).isEmpty then acc
      else
        ((groupOf commits e.1).foldl (fun a c => a ++ commitLine c)
          (acc ++ headPre ++ e.2.1 ++ spaceStr ++ e.2.2 ++ nlStr)) ++ nlStr)
      (hdrOpen ++ tag ++ hdrMid ++ release_date ++ nl2)
    body ++ totalPre ++ toString commits.length ++ totalSuf ++ sepLine

/-- Concatenation of a list of strings. -/
def strJoin : List String → String
  | [] => emptyStr
  | s :: rest => s ++ strJoin rest

/-- The heading line a table entry produces (`### {emoji} {description}\n`). -/
def headingLine (e : Entry) : String :=
  headPre ++ e.2.1 ++ spaceStr ++ e.2.2 ++ nlStr

/-- Spec-side renderer, following the spec wording: header, then for each
category in declared order a heading plus one bullet per record of its group
(input order) plus a blank line when the group is non-empty, then the
total-commit-count summary and a horizontal rule. -/
def renderSpec (tag : String) (commits : List Commit) (release_date : String) : String :=
  hdrOpen ++ tag ++ hdrMid ++ release_date ++ nl2 ++
  strJoin (COMMIT_TYPES.map (fun e =>
    if (groupOf commits e.1).isEmpty then emptyStr
    else headingLine e ++ strJoin ((groupOf commits e.1).map commitLine) ++ nlStr)) ++
  totalPre ++ toString commits.length ++ totalSuf ++ sepLine

def FILES_MARK : String := "files changed"
def FILE_MARK : String := "file changed"

/-- The loop of `get_commit_stats` that looks for the shortstat line. -/
def isStatsLine (l : List Char) : Bool :=
  containsL FILES_MARK.data l || containsL FILE_MARK.data l

def INS_WORD : String := "insertion"
def DEL_WORD : String := "deletion"

/-- The parsing core of `get_commit_stats` (source lines 70-101): its input
is the text the git query returned; the subprocess wrapper itself is out of
scope.  Finds the first `files changed` line, then extracts the insertion
and deletion counts with the two `(\d+)\s+...` regexes, defaulting to 0. -/
def parse_commit_stats (s : List Char) : Nat × Nat :=
  if s.isEmpty then (0, 0)
  else
    match (pySplit '\n' (pyStrip s)).find? isStatsLine with
    | none => (0, 0)
    | some l => ((searchNum INS_WORD.data l).getD 0, (searchNum DEL_WORD.data l).getD 0)

def FILES_PAD : String := " files changed, "
def INS_PAD : String := " insertions(+), "
def DEL_PAD : String := " deletions(-)"

/-- A well-formed `--shortstat` line with the given digit strings. -/
def mkStatsLine (ds ns ms : List Char) : List Char :=
  ds ++ FILES_PAD.data ++ ns ++ INS_PAD.data ++ ms ++ DEL_PAD.data

def UNREL_HEAD : String := "## [Unreleased]"

/-- The splice step of `update_changelog_for_tag` (source lines 375-383):
find `"## [Unreleased]"`, then the first `"---\n\n"` from there, and insert
the release section at that index plus 6 (the `insert_pos` of the code); when the
separator is not found the section is appended after a newline.  A failed
first `find` yields the Python `-1`, which the second `find` receives as a
start position meaning `len - 1`. -/
def update_changelog_splice (existing release : List Char) : List Char :=
  let j := match pyFindFrom UNREL_HEAD.data existing 0 with
    | some i => pyFindFrom sepLine.data existing i
    | none => pyFindFrom sepLine.data existing (existing.length - 1)
  match j with
  | none => existing ++ ('\n' :: release)
  | some p => existing.take (p + 6) ++ release ++ existing.drop (p + 6)

/-- Union of every trigger-word list of the keyword heuristic. -/
def ALL_TRIGGERS : List String :=
  featWords ++ fixWords ++ docsWords ++ styleWords ++ refactorWords ++ perfWords ++
  testWords ++ securityWords ++ removeWords ++ depsWords ++ updateWords

def naStr : String := "N/A"
def addedHead : String := "### ✨ Added"
def changedHead : String := "### 🔧 Changed"
def fixedHead : String := "### 🐛 Fixed"

/-- The default changelog skeleton synthesized when `CHANGELOG.md` is absent
(source lines 353-373). -/
def DEFAULT_SKEL : String :=
  "# Changelog\n\nAll notable changes to the LifeSmart Calculator project will be documented in this file.\n\nThe format is based on [Keep a Changelog](https://keepachangelog.com/en/1.0.0/),\nand this project adheres to [Semantic Versioning](https://semver.org/spec/v2.0.0.html).\n\n## [Unreleased]\n\n### ✨ Added\n- N/A\n\n### 🔧 Changed\n- N/A\n\n### 🐛 Fixed\n- N/A\n\n---\n\n"

/-! ### Generic helper lemmas -/

theorem find_uniq {α : Type} (p : α → Bool) (l : List α) (a : α) (ha : a ∈ l)
    (hp : p a = true) (hu : ∀ b ∈ l, p b = true → b = a) : l.find? p = some a := by
  induction l with
  | nil => cases ha
  | cons x xs ih =>
    by_cases hx : p x = true
    · have hxa : x = a := hu x (List.mem_cons_self x xs) hx
      subst hxa
      exact List.find?_cons_of_pos xs hx
    · have hax : a ∈ xs := by
        rcases List.mem_cons.mp ha with h | h
        · exact absurd (h ▸ hp) hx
        · exact h
      rw [List.find?_cons_of_neg xs hx]
      exact ih hax (fun b hb hpb => hu b (List.mem_cons_of_mem x hb) hpb)

theorem isPfxOf_append_self (w t : List Char) : w.isPrefixOf (w ++ t) = true :=
  List.isPrefixOf_iff_prefix.mpr (List.prefix_append w t)

theorem containsL_of_pfx (p l : List Char) (h : p.isPrefixOf l = true) :
    containsL p l = true := by
  cases l with
  | nil =>
    cases p with
    | nil => rfl
    | cons x xt => simp [List.isPrefixOf] at h
  | cons c rest => simp [containsL, h]

theorem containsL_append_left (p b : List Char) (h : containsL p b = true) :
    ∀ a : List Char, containsL p (a ++ b) = true := by
  intro a
  induction a with
  | nil => simpa using h
  | cons c a' ih =>
    simp only [List.cons_append, containsL, Bool.or_eq_true]
    exact Or.inr ih

theorem containsL_here (p a b : List Char) : containsL p (a ++ (p ++ b)) = true :=
  containsL_append_left p _ (containsL_of_pfx _ _ (isPfxOf_append_self p b)) a

theorem isPfxOf_eq_false_of_misMatch (w : List Char) :
    ∀ a : List Char, misMatch w a = true → ∀ b, w.isPrefixOf (a ++ b) = false := by
  induction w with
  | nil => intro a h; cases a <;> simp [misMatch] at h
  | cons x xt ih =>
    intro a h b
    cases a with
    | nil => simp [misMatch] at h
    | cons y yt =>
      simp only [misMatch, Bool.or_eq_true, bne_iff_ne, ne_eq] at h
      simp only [List.cons_append, List.isPrefixOf]
      rcases h with h | h
      · have : (x == y) = false := beq_eq_false_iff_ne.mpr h
        simp [this]
      · have : xt.isPrefixOf (yt ++ b) = false := ih yt h b
        simp [this]

theorem countOcc_append_failsIn (p : List Char) :
    ∀ a b : List Char, failsIn p a = true → countOcc p (a ++ b) = countOcc p b := by
  intro a
  induction a with
  | nil => intro b _; rfl
  | cons c a' ih =>
    intro b h
    simp only [failsIn, Bool.and_eq_true] at h
    have hpf := isPfxOf_eq_false_of_misMatch p (c :: a') h.1 b
    rw [List.cons_append] at hpf
    rw [List.cons_append]
    simp [countOcc, hpf, ih b h.2]

theorem countOcc_append_headne (p : List Char) (c : Char) (hp : p.head? = some c) :
    ∀ a b : List Char, (∀ x ∈ a, x ≠ c) → countOcc p (a ++ b) = countOcc p b := by
  intro a
  induction a with
  | nil => intro b _; rfl
  | cons y a' ih =>
    intro b h
    cases p with
    | nil => simp at hp
    | cons c' pt =>
      have hc : c' = c := by simpa using hp
      have hyne : (c' == y) = false :=
        beq_eq_false_iff_ne.mpr (fun hh => (h y (List.mem_cons_self y a')) (hh.symm.trans hc))
      rw [List.cons_append]
      simp [countOcc, List.isPrefixOf, hyne, ih b (fun x hx => h x (List.mem_cons_of_mem y hx))]

theorem takeWhile_all (p : Char → Bool) (l : List Char) (h : ∀ c ∈ l, p c = true) :
    l.takeWhile p = l := by
  induction l with
  | nil => rfl
  | cons c rest ih =>
    rw [List.takeWhile_cons, if_pos (h c (List.mem_cons_self c rest))]
    rw [ih (fun x hx => h x (List.mem_cons_of_mem c hx))]

theorem dropWhile_all (p : Char → Bool) (l : List Char) (h : ∀ c ∈ l, p c = true) :
    l.dropWhile p = [] := by
  induction l with
  | nil => rfl
  | cons c rest ih =>
    rw [List.dropWhile_cons, if_pos (h c (List.mem_cons_self c rest))]
    exact ih (fun x hx => h x (List.mem_cons_of_mem c hx))

theorem dropWhile_of_takeWhile_nil (p : Char → Bool) (l : List Char)
    (h : l.takeWhile p = []) : l.dropWhile p = l := by
  cases l with
  | nil => rfl
  | cons c rest =>
    rw [List.takeWhile_cons] at h
    by_cases hc : p c = true
    · rw [if_pos hc] at h; cases h
    · rw [List.dropWhile_cons, if_neg hc]

theorem takeWhile_concrete_stop (p : Char → Bool) (a b : List Char)
    (h : (a.takeWhile p).length < a.length) :
    (a ++ b).takeWhile p = a.takeWhile p := by
  rw [List.takeWhile_append, if_neg (Nat.ne_of_lt h)]

theorem dropWhile_concrete_stop (p : Char → Bool) (a b : List Char)
    (h : (a.dropWhile p).isEmpty = false) :
    (a ++ b).dropWhile p = a.dropWhile p ++ b := by
  rw [List.dropWhile_append, if_neg (by simp [h])]

theorem pySplit_eq_single (sep : Char) (l : List Char) (h : ∀ c ∈ l, c ≠ sep) :
    pySplit sep l = [l] := by
  induction l with
  | nil => rfl
  | cons c rest ih =>
    have hr := ih (fun x hx => h x (List.mem_cons_of_mem c hx))
    simp [pySplit, hr, h c (List.mem_cons_self c rest)]

theorem foldl_append_eq {α : Type} (f : α → String) (l : List α) :
    ∀ init : String, l.foldl (fun acc x => acc ++ f x) init = init ++ strJoin (l.map f) := by
  induction l with
  | nil => intro init; simp [strJoin, emptyStr, String.append_empty]
  | cons x xs ih =>
    intro init
    simp only [List.foldl_cons, List.map_cons, strJoin]
    rw [ih (init ++ f x), String.append_assoc]

theorem space_not_digit (c : Char) (h : isPySpace c = true) : isDigitCh c = false := by
  simp only [isPySpace, Bool.or_eq_true, beq_iff_eq] at h
  rcases h with ((((h | h) | h) | h) | h) | h <;> subst h <;> decide

theorem digit_not_space (c : Char) (h : isDigitCh c = true) : isPySpace c = false := by
  cases hs : isPySpace c
  · rfl
  · rw [space_not_digit c hs] at h; cases h

theorem searchNum_cons_nondigit (w : List Char) (c : Char) (rest : List Char)
    (h : isDigitCh c = false) : searchNum w (c :: rest) = searchNum w rest := by
  have hm : matchAt w (c :: rest) = none := by
    simp [matchAt, List.takeWhile_cons, h]
  simp [searchNum, hm]

theorem searchNum_append_nondigit (w : List Char) :
    ∀ a b : List Char, (∀ c ∈ a, isDigitCh c = false) →
      searchNum w (a ++ b) = searchNum w b := by
  intro a
  induction a with
  | nil => intro b _; rfl
  | cons c a' ih =>
    intro b h
    rw [List.cons_append, searchNum_cons_nondigit w c _ (h c (List.mem_cons_self c a'))]
    exact ih b (fun x hx => h x (List.mem_cons_of_mem c hx))

theorem searchNum_none_all_nondigit (w : List Char) :
    ∀ l : List Char, (∀ c ∈ l, isDigitCh c = false) → searchNum w l = none := by
  intro l
  induction l with
  | nil => intro _; rfl
  | cons c rest ih =>
    intro h
    rw [searchNum_cons_nondigit w c rest (h c (List.mem_cons_self c rest))]
    exact ih (fun x hx => h x (List.mem_cons_of_mem c hx))

theorem matchAt_digits (w ds b : List Char) (hne : ds.isEmpty = false)
    (hd : ∀ c ∈ ds, isDigitCh c = true) (hb : b.takeWhile isDigitCh = []) :
    matchAt w (ds ++ b) =
      (if (b.takeWhile isPySpace).isEmpty = true then none
       else if w.isPrefixOf (b.dropWhile isPySpace) = true then some (digitsVal ds)
       else none) := by
  have h1 : (ds ++ b).takeWhile isDigitCh = ds := by
    rw [List.takeWhile_append, if_pos (by rw [takeWhile_all isDigitCh ds hd]), hb,
      List.append_nil]
  have h2 : (ds ++ b).dropWhile isDigitCh = b := by
    rw [List.dropWhile_append, if_pos (by rw [dropWhile_all isDigitCh ds hd]; rfl)]
    exact dropWhile_of_takeWhile_nil isDigitCh b hb
  simp only [matchAt, h1, h2, hne, Bool.false_eq_true, if_false]

theorem searchNum_digits_skip (w : List Char) :
    ∀ ds b : List Char, (∀ c ∈ ds, isDigitCh c = true) →
      b.takeWhile isDigitCh = [] →
      ((b.takeWhile isPySpace).isEmpty = true ∨
        w.isPrefixOf (b.dropWhile isPySpace) = false) →
      searchNum w (ds ++ b) = searchNum w b := by
  intro ds
  induction ds with
  | nil => intro b _ _ _; rfl
  | cons c ds' ih =>
    intro b hd hb hfail
    have hm : matchAt w ((c :: ds') ++ b) = none := by
      rw [matchAt_digits w (c :: ds') b rfl hd hb]
      rcases hfail with h | h
      · simp [h]
      · by_cases hsp : (b.takeWhile isPySpace).isEmpty = true
        · simp [hsp]
        · simp [hsp, h]
    rw [List.cons_append] at hm
    rw [List.cons_append]
    simp only [searchNum, hm]
    exact ih b (fun x hx => hd x (List.mem_cons_of_mem c hx)) hb hfail

theorem searchNum_digits_hit (w ds b : List Char) (hne : ds ≠ [])
    (hd : ∀ c ∈ ds, isDigitCh c = true)
    (hb : b.takeWhile isDigitCh = [])
    (hsp : (b.takeWhile isPySpace).isEmpty = false)
    (hw : w.isPrefixOf (b.dropWhile isPySpace) = true) :
    searchNum w (ds ++ b) = some (digitsVal ds) := by
  cases ds with
  | nil => cases hne rfl
  | cons c ds' =>
    have hm : matchAt w ((c :: ds') ++ b) = some (digitsVal (c :: ds')) := by
      rw [matchAt_digits w (c :: ds') b rfl hd hb]
      simp [hsp, hw]
    rw [List.cons_append] at hm
    rw [List.cons_append]
    simp only [searchNum, hm]

/-! ### Classifier lemmas -/

set_option maxRecDepth 40000

/-- No type key of the table extends another one: two entries whose
`type:` strings are comparable under the prefix order are equal. -/
theorem typeKeysApart :
    ∀ e1 ∈ COMMIT_TYPES, ∀ e2 ∈ COMMIT_TYPES,
      ((e1.1.data ++ [':']).isPrefixOf (e2.1.data ++ [':']) = true ∨
       (e2.1.data ++ [':']).isPrefixOf (e1.1.data ++ [':']) = true) → e1 = e2 := by
  decide

/-- The prefix scan of `categorize_commit` finds exactly the matching entry. -/
theorem find_pref_eq (m : List Char) (e : Entry) (hmem : e ∈ COMMIT_TYPES)
    (hp : prefTest m e = true) : COMMIT_TYPES.find? (prefTest m) = some e := by
  apply find_uniq _ _ _ hmem hp
  intro b hb hpb
  have h1 : (b.1.data ++ [':']) <+: m := List.isPrefixOf_iff_prefix.mp hpb
  have h2 : (e.1.data ++ [':']) <+: m := List.isPrefixOf_iff_prefix.mp hp
  rcases List.prefix_or_prefix_of_prefix h1 h2 with h | h
  · exact typeKeysApart b hb e hmem (Or.inl (List.isPrefixOf_iff_prefix.mpr h))
  · exact typeKeysApart b hb e hmem (Or.inr (List.isPrefixOf_iff_prefix.mpr h))

/-- The `elif` chain computes exactly the first match of the priority list. -/
theorem keywordCat_eq_priority (m : List Char) : keywordCat m = priorityClassify m := by
  unfold keywordCat priorityClassify PRIORITY
  simp only [List.find?]
  by_cases h1 : featWords.any (hasWord m) = true
  · simp [h1]
  · simp only [Bool.not_eq_true] at h1
    simp only [h1]
    by_cases h2 : fixWords.any (hasWord m) = true
    · simp [h2]
    · simp only [Bool.not_eq_true] at h2
      simp only [h2]
      by_cases h3 : docsWords.any (hasWord m) = true
      · simp [h3]
      · simp only [Bool.not_eq_true] at h3
        simp only [h3]
        by_cases h4 : styleWords.any (hasWord m) = true
        · simp [h4]
        · simp only [Bool.not_eq_true] at h4
          simp only [h4]
          by_cases h5 : refactorWords.any (hasWord m) = true
          · simp [h5]
          · simp only [Bool.not_eq_true] at h5
            simp only [h5]
            by_cases h6 : perfWords.any (hasWord m) = true
            · simp [h6]
            · simp only [Bool.not_eq_true] at h6
              simp only [h6]
              by_cases h7 : testWords.any (hasWord m) = true
              · simp [h7]
              · simp only [Bool.not_eq_true] at h7
                simp only [h7]
                by_cases h8 : securityWords.any (hasWord m) = true
                · simp [h8]
                · simp only [Bool.not_eq_true] at h8
                  simp only [h8]
                  by_cases h9 : removeWords.any (hasWord m) = true
                  · simp [h9]
                  · simp only [Bool.not_eq_true] at h9
                    simp only [h9]
                    by_cases h10 : depsWords.any (hasWord m) = true
                    · simp [h10]
                    · simp only [Bool.not_eq_true] at h10
                      simp only [h10]
                      by_cases h11 : updateWords.any (hasWord m) = true
                      · simp [h11, choreEntry]
                      · simp only [Bool.not_eq_true] at h11
                        simp [h11]

/-- Occurrence counting over the empty-commits template reduces to the
constant body when the first character of the pattern avoids tag and date. -/
theorem countOcc_sec (tag date : String) (p : List Char) (c : Char) (hp : p.head? = some c)
    (hA : failsIn p hdrOpen.data = true) (hB : failsIn p hdrMid.data = true)
    (ht : ∀ x ∈ tag.data, x ≠ c) (hd : ∀ x ∈ date.data, x ≠ c) :
    countOcc p (hdrOpen ++ tag ++ hdrMid ++ date ++ emptyBody).data
      = countOcc p emptyBody.data := by
  simp only [String.data_append, List.append_assoc]
  rw [countOcc_append_failsIn p hdrOpen.data _ hA,
      countOcc_append_headne p c hp tag.data _ ht,
      countOcc_append_failsIn p hdrMid.data _ hB,
      countOcc_append_headne p c hp date.data _ hd]

/-- The accumulating fold of `generate_release_section` equals the join of
per-category blocks. -/
theorem genBody_eq (commits : List Commit) (init : String) :
    COMMIT_TYPES.foldl
      (fun acc e => if (groupOf commits e.1).isEmpty then acc
        else ((groupOf commits e.1).foldl (fun a c => a ++ commitLine c)
          (acc ++ headPre ++ e.2.1 ++ spaceStr ++ e.2.2 ++ nlStr)) ++ nlStr) init
    = init ++ strJoin (COMMIT_TYPES.map (fun e =>
        if (groupOf commits e.1).isEmpty then emptyStr
        else headingLine e ++ strJoin ((groupOf commits e.1).map commitLine) ++ nlStr)) := by
  have hF : (fun (acc : String) (e : Entry) =>
      if (groupOf commits e.1).isEmpty then acc
      else ((groupOf commits e.1).foldl (fun a c => a ++ commitLine c)
        (acc ++ headPre ++ e.2.1 ++ spaceStr ++ e.2.2 ++ nlStr)) ++ nlStr)
      = (fun (acc : String) (e : Entry) => acc ++
        (if (groupOf commits e.1).isEmpty then emptyStr
         else headingLine e ++ strJoin ((groupOf commits e.1).map commitLine) ++ nlStr)) := by
    funext acc e
    by_cases hP : (groupOf commits e.1).isEmpty = true
    · simp [hP, emptyStr, String.append_empty]
    · simp only [Bool.not_eq_true] at hP
      simp only [hP, Bool.false_eq_true, if_false]
      rw [foldl_append_eq commitLine (groupOf commits e.1)]
      simp [headingLine, String.append_assoc]
  rw [hF]
  exact foldl_append_eq _ COMMIT_TYPES init

/-- Every branch of the keyword chain returns an entry of the table. -/
theorem keywordCat_mem (m : List Char) : keywordCat m ∈ COMMIT_TYPES := by
  rw [keywordCat_eq_priority m]
  unfold priorityClassify
  cases hf : PRIORITY.find? (fun pr => pr.1.any (hasWord m)) with
  | some pr =>
    have hm : pr ∈ PRIORITY := List.mem_of_find?_eq_some hf
    have hall : ∀ q ∈ PRIORITY, q.2 ∈ COMMIT_TYPES := by decide
    exact hall pr hm
  | none => decide

/-! ### Claim theorems -/

/-- Claim C1: for every commit message whose lower-cased form starts with
`type:` for one of the 14 recognized type keywords, `categorize_commit`
returns exactly the table entry of that type, regardless of keyword content
elsewhere in the message. -/
theorem claim_C1 (msg : String) (e : Entry) (hmem : e ∈ COMMIT_TYPES)
    (hp : prefTest (pyLower msg.data) e = true) : categorize_commit msg = e := by
  simp only [categorize_commit]
  rw [find_pref_eq (pyLower msg.data) e hmem hp]

/-- Witness for C1: a message with an explicit `fix:` prefix and feature
keywords in its body is still classified as fix. -/
theorem claim_C1_wit :
    categorize_commit ("Fix: add new feature chart")
      = ("fix", "🐛 Fixed", "Bug fixes and improvements") :=
  claim_C1 ("Fix: add new feature chart") _ (by decide) (by decide)

/-- Claim C2: for every commit message without a recognized `type:` prefix,
`categorize_commit` returns the first category of the fixed priority list
(feature, fix, docs, style, refactor, performance, test, security, remove,
dependency-update, generic-change) whose trigger-word list has a member in
the lower-cased message, ties broken by category order, not word position. -/
theorem claim_C2 (msg : String)
    (h : ∀ e ∈ COMMIT_TYPES, prefTest (pyLower msg.data) e = false) :
    categorize_commit msg = priorityClassify (pyLower msg.data) := by
  have hn : COMMIT_TYPES.find? (prefTest (pyLower msg.data)) = none :=
    List.find?_eq_none.mpr (fun e he => by simp [h e he])
  simp only [categorize_commit]
  rw [hn]
  exact keywordCat_eq_priority (pyLower msg.data)

/-- Witness for C2: a message containing both a docs word and a fix word
resolves by category priority (fix before docs). -/
theorem claim_C2_wit :
    categorize_commit ("readme says this can fix things")
      = priorityClassify (pyLower ("readme says this can fix things").data) ∧
    priorityClassify (pyLower ("readme says this can fix things").data)
      = ("fix", "🐛 Fixed", "Bug fixes and improvements") :=
  ⟨claim_C2 ("readme says this can fix things") (by decide), by decide⟩

/-- Claim C4 (code bug): the cleaning step is specified to strip at most one
leading `type:` or `type(scope):` prefix and capitalize; the code instead
strips only the bare `type(` for scoped prefixes, leaving `scope):` behind,
and strips two stacked `type:` prefixes.  Both divergences evaluated. -/
theorem claim_C4 :
    clean_commit_message ("feat(ui): add button") = ("Ui): add button") ∧
    clean_commit_message ("fix: fix: resolve") = ("Resolve") := by
  exact ⟨by decide, by decide⟩

/-- Claim C5: `format_commit_with_stats msg 0 0` never appends a statistics
annotation, and with a positive count it appends the comma-joined,
backtick-wrapped parts `+n` (when `n > 0`) and `-m` (when `m > 0`). -/
theorem claim_C5 (msg : String) (n m : Nat) :
    format_commit_with_stats msg 0 0 = clean_commit_message msg ∧
    (0 < n ∨ 0 < m →
      format_commit_with_stats msg n m =
        clean_commit_message msg ++ statsOpen ++
          String.intercalate commaSep
            ((if 0 < n then [plusSign ++ toString n] else []) ++
             (if 0 < m then [minusSign ++ toString m] else [])) ++ statsClose) := by
  constructor
  · simp [format_commit_with_stats]
  · intro h
    have hc : (decide (n > 0) || decide (m > 0)) = true := by
      rcases h with h | h <;> simp [h]
    simp only [format_commit_with_stats, hc, if_true]

/-- Witness for C5: concrete formatting with both counts positive. -/
theorem claim_C5_wit :
    format_commit_with_stats ("fix: resolve crash") 15 3 = ("Resolve crash `+15, -3`") :=
  ((claim_C5 ("fix: resolve crash") 15 3).2 (Or.inl (by decide))).trans (by decide)

/-- Claim C6: `categorize_commit` is total, always returns an entry of the
table, and defaults to the maintenance/chore entry when neither a `type:`
prefix nor any trigger word matches. -/
theorem claim_C6 :
    (∀ msg : String, categorize_commit msg ∈ COMMIT_TYPES) ∧
    (∀ msg : String,
      (∀ e ∈ COMMIT_TYPES, prefTest (pyLower msg.data) e = false) →
      (∀ w ∈ ALL_TRIGGERS, hasWord (pyLower msg.data) w = false) →
      categorize_commit msg = choreEntry) := by
  constructor
  · intro msg
    simp only [categorize_commit]
    cases hf : COMMIT_TYPES.find? (prefTest (pyLower msg.data)) with
    | some e => exact List.mem_of_find?_eq_some hf
    | none => exact keywordCat_mem (pyLower msg.data)
  · intro msg h1 h2
    have hn : COMMIT_TYPES.find? (prefTest (pyLower msg.data)) = none :=
      List.find?_eq_none.mpr (fun e he => by simp [h1 e he])
    have ha : ∀ ws : List String,
        (∀ w ∈ ws, w ∈ ALL_TRIGGERS) → ws.any (hasWord (pyLower msg.data)) = false :=
      fun ws hws => List.any_eq_false.mpr (fun w hw => by simp [h2 w (hws w hw)])
    have g1 := ha featWords (by intro w hw; simp [ALL_TRIGGERS, List.mem_append]; tauto)
    have g2 := ha fixWords (by intro w hw; simp [ALL_TRIGGERS, List.mem_append]; tauto)
    have g3 := ha docsWords (by intro w hw; simp [ALL_TRIGGERS, List.mem_append]; tauto)
    have g4 := ha styleWords (by intro w hw; simp [ALL_TRIGGERS, List.mem_append]; tauto)
    have g5 := ha refactorWords (by intro w hw; simp [ALL_TRIGGERS, List.mem_append]; tauto)
    have g6 := ha perfWords (by intro w hw; simp [ALL_TRIGGERS, List.mem_append]; tauto)
    have g7 := ha testWords (by intro w hw; simp [ALL_TRIGGERS, List.mem_append]; tauto)
    have g8 := ha securityWords (by intro w hw; simp [ALL_TRIGGERS, List.mem_append]; tauto)
    have g9 := ha removeWords (by intro w hw; simp [ALL_TRIGGERS, List.mem_append]; tauto)
    have g10 := ha depsWords (by intro w hw; simp [ALL_TRIGGERS, List.mem_append]; tauto)
    have g11 := ha updateWords (by intro w hw; simp [ALL_TRIGGERS, List.mem_append]; tauto)
    simp only [categorize_commit]
    rw [hn]
    simp [keywordCat, g1, g2, g3, g4, g5, g6, g7, g8, g9, g10, g11]

/-- Witness for C6: the empty message matches nothing and lands in chore. -/
theorem claim_C6_wit : categorize_commit ("") = choreEntry :=
  claim_C6.2 ("") (by decide) (by decide)

/-- Claim C3 (code bug): insertion is specified to happen immediately after
the first `---` separator following the Unreleased heading, but the code
adds 6 to the found index although the marker `"---\n\n"` is 5 characters
long, so the first character of the following content (here the `#` of the
next release heading) ends up before the inserted section.  On the default
skeleton the out-of-range slice index clamps and the section is appended,
so the tag then occurs exactly once. -/
theorem claim_C3 :
    update_changelog_splice (("## [Unreleased]\n\n---\n\n## [v1.0.0] - 2024-01-01\n").data)
        (("NEW\n").data)
      = (("## [Unreleased]\n\n---\n\n#NEW\n# [v1.0.0] - 2024-01-01\n").data) ∧
    update_changelog_splice DEFAULT_SKEL.data
        (("## [v9.9.9] - 2024-01-01\n\nSEC\n\n---\n\n").data)
      = DEFAULT_SKEL.data ++ (("## [v9.9.9] - 2024-01-01\n\nSEC\n\n---\n\n").data) ∧
    countOcc (("v9.9.9").data)
        (DEFAULT_SKEL.data ++ (("## [v9.9.9] - 2024-01-01\n\nSEC\n\n---\n\n").data)) = 1 :=
  ⟨by decide, by decide, by decide⟩

/-- Claim C7: rendering an empty record list yields the fixed degenerate
template: exactly three `### ` headings (Added, Changed, Fixed, each once),
exactly three `N/A` placeholders, and no total-count line, for any tag and
date that do not themselves contain the counted marker characters. -/
theorem claim_C7 (tag date : String)
    (ht1 : '#' ∉ tag.data) (ht2 : 'N' ∉ tag.data) (ht3 : '*' ∉ tag.data)
    (hd1 : '#' ∉ date.data) (hd2 : 'N' ∉ date.data) (hd3 : '*' ∉ date.data) :
    generate_release_section tag [] date = hdrOpen ++ tag ++ hdrMid ++ date ++ emptyBody ∧
    countOcc headPre.data (generate_release_section tag [] date).data = 3 ∧
    countOcc addedHead.data (generate_release_section tag [] date).data = 1 ∧
    countOcc changedHead.data (generate_release_section tag [] date).data = 1 ∧
    countOcc fixedHead.data (generate_release_section tag [] date).data = 1 ∧
    countOcc naStr.data (generate_release_section tag [] date).data = 3 ∧
    countOcc totalPre.data (generate_release_section tag [] date).data = 0 := by
  have hout : generate_release_section tag [] date
      = hdrOpen ++ tag ++ hdrMid ++ date ++ emptyBody := rfl
  refine ⟨hout, ?_, ?_, ?_, ?_, ?_, ?_⟩ <;> rw [hout]
  · rw [countOcc_sec tag date headPre.data '#' (by decide) (by decide) (by decide)
      (fun x hx hh => ht1 (hh ▸ hx)) (fun x hx hh => hd1 (hh ▸ hx))]
    decide
  · rw [countOcc_sec tag date addedHead.data '#' (by decide) (by decide) (by decide)
      (fun x hx hh => ht1 (hh ▸ hx)) (fun x hx hh => hd1 (hh ▸ hx))]
    decide
  · rw [countOcc_sec tag date changedHead.data '#' (by decide) (by decide) (by decide)
      (fun x hx hh => ht1 (hh ▸ hx)) (fun x hx hh => hd1 (hh ▸ hx))]
    decide
  · rw [countOcc_sec tag date fixedHead.data '#' (by decide) (by decide) (by decide)
      (fun x hx hh => ht1 (hh ▸ hx)) (fun x hx hh => hd1 (hh ▸ hx))]
    decide
  · rw [countOcc_sec tag date naStr.data 'N' (by decide) (by decide) (by decide)
      (fun x hx hh => ht2 (hh ▸ hx)) (fun x hx hh => hd2 (hh ▸ hx))]
    decide
  · rw [countOcc_sec tag date totalPre.data '*' (by decide) (by decide) (by decide)
      (fun x hx hh => ht3 (hh ▸ hx)) (fun x hx hh => hd3 (hh ▸ hx))]
    decide

/-- Witness for C7: the `N/A` count at a concrete tag and date. -/
theorem claim_C7_wit :
    countOcc naStr.data (generate_release_section ("v1.0.0") [] ("2024-01-01")).data = 3 :=
  (claim_C7 ("v1.0.0") ("2024-01-01") (by decide) (by decide) (by decide)
    (by decide) (by decide) (by decide)).2.2.2.2.2.1

/-- Claim C8: for a non-empty record list the renderer classifies every
record, groups by category, walks the categories in their fixed declared
order emitting heading plus oldest-first bullets plus a blank line per
non-empty group, then the total-commit-count line and a horizontal rule:
it equals the spec-side `renderSpec`. -/
theorem claim_C8 (tag date : String) (commits : List Commit) (h : commits ≠ []) :
    generate_release_section tag commits date = renderSpec tag commits date := by
  have hne : commits.isEmpty = false := by
    cases commits with
    | nil => cases h rfl
    | cons c cs => rfl
  unfold generate_release_section renderSpec
  simp only [hne, Bool.false_eq_true, if_false]
  rw [genBody_eq commits (hdrOpen ++ tag ++ hdrMid ++ date ++ nl2)]

/-- Witness for C8: a two-commit render agrees with the spec renderer. -/
theorem claim_C8_wit :
    generate_release_section ("v2.0") [⟨"fix: crash", 1, 2⟩, ⟨"docs: readme", 0, 0⟩]
        ("2024-02-02")
      = renderSpec ("v2.0") [⟨"fix: crash", 1, 2⟩, ⟨"docs: readme", 0, 0⟩] ("2024-02-02") :=
  claim_C8 ("v2.0") ("2024-02-02") _ (List.cons_ne_nil _ _)

/-- Claim C9: the statistics parse recovers locally: with no
`files changed` line, or a stats line without any digit, it returns
`(0, 0)`; on a well-formed shortstat line it returns exactly the integers
written in the insertions and deletions fields. -/
theorem claim_C9 :
    (∀ s : List Char, (∀ l ∈ pySplit '\n' (pyStrip s), isStatsLine l = false) →
      parse_commit_stats s = (0, 0)) ∧
    (∀ s l : List Char, (pySplit '\n' (pyStrip s)).find? isStatsLine = some l →
      (∀ c ∈ l, isDigitCh c = false) → parse_commit_stats s = (0, 0)) ∧
    (∀ ds ns ms : List Char, ds ≠ [] → ns ≠ [] → ms ≠ [] →
      (∀ c ∈ ds, isDigitCh c = true) → (∀ c ∈ ns, isDigitCh c = true) →
      (∀ c ∈ ms, isDigitCh c = true) →
      parse_commit_stats (mkStatsLine ds ns ms) = (digitsVal ns, digitsVal ms)) := by
  refine ⟨?_, ?_, ?_⟩
  · intro s h
    by_cases hs : s.isEmpty = true
    · simp [parse_commit_stats, hs]
    · simp only [Bool.not_eq_true] at hs
      have hn : (pySplit '\n' (pyStrip s)).find? isStatsLine = none :=
        List.find?_eq_none.mpr (fun l hl => by simp [h l hl])
      simp [parse_commit_stats, hs, hn]
  · intro s l hf hd
    by_cases hs : s.isEmpty = true
    · simp [parse_commit_stats, hs]
    · simp only [Bool.not_eq_true] at hs
      have hins := searchNum_none_all_nondigit INS_WORD.data l hd
      have hdel := searchNum_none_all_nondigit DEL_WORD.data l hd
      simp [parse_commit_stats, hs, hf, hins, hdel]
  · intro ds ns ms hds hns hms hdd hnd hmd
    cases ds with
    | nil => cases hds rfl
    | cons d ds' =>
      have hd0 : isDigitCh d = true := hdd d (List.mem_cons_self d ds')
      have hsp0 : isPySpace d = false := digit_not_space d hd0
      have hassoc : mkStatsLine (d :: ds') ns ms
          = (d :: ds') ++ (FILES_PAD.data ++ (ns ++ (INS_PAD.data ++ (ms ++ DEL_PAD.data)))) := by
        simp [mkStatsLine, List.append_assoc]
      have hne : (mkStatsLine (d :: ds') ns ms).isEmpty = false := by
        rw [hassoc]; rfl
      have hfront : (mkStatsLine (d :: ds') ns ms).dropWhile isPySpace
          = mkStatsLine (d :: ds') ns ms := by
        rw [hassoc, List.cons_append, List.dropWhile_cons, if_neg (by simp [hsp0])]
      have hback : (mkStatsLine (d :: ds') ns ms).reverse.dropWhile isPySpace
          = (mkStatsLine (d :: ds') ns ms).reverse := by
        have h1 : (mkStatsLine (d :: ds') ns ms).reverse
            = DEL_PAD.data.reverse ++ (ms.reverse ++ (INS_PAD.data.reverse ++
              (ns.reverse ++ (FILES_PAD.data.reverse ++ (d :: ds').reverse)))) := by
          simp [mkStatsLine, List.reverse_append, List.append_assoc]
        have h2 : DEL_PAD.data.reverse = ((")-(snoiteled ").data) := by decide
        rw [h1, h2, dropWhile_concrete_stop isPySpace _ _ (by decide),
          show ((")-(snoiteled ").data).dropWhile isPySpace = ((")-(snoiteled ").data)
            from by decide]
      have hstrip : pyStrip (mkStatsLine (d :: ds') ns ms) = mkStatsLine (d :: ds') ns ms := by
        unfold pyStrip
        rw [hfront, hback, List.reverse_reverse]
      have hdig : ∀ c : Char, isDigitCh c = true → c ≠ '\n' := by
        intro c hc hh
        rw [hh] at hc
        exact absurd hc (by decide)
      have hnl : ∀ c ∈ mkStatsLine (d :: ds') ns ms, c ≠ '\n' := by
        intro c hc
        rw [hassoc] at hc
        simp only [List.mem_append] at hc
        rcases hc with hc | hc | hc | hc | hc | hc
        · exact hdig c (hdd c hc)
        · exact (by decide : ∀ x ∈ FILES_PAD.data, x ≠ '\n') c hc
        · exact hdig c (hnd c hc)
        · exact (by decide : ∀ x ∈ INS_PAD.data, x ≠ '\n') c hc
        · exact hdig c (hmd c hc)
        · exact (by decide : ∀ x ∈ DEL_PAD.data, x ≠ '\n') c hc
      have hsplit : pySplit '\n' (mkStatsLine (d :: ds') ns ms)
          = [mkStatsLine (d :: ds') ns ms] :=
        pySplit_eq_single '\n' _ hnl
      have hstats : isStatsLine (mkStatsLine (d :: ds') ns ms) = true := by
        unfold isStatsLine
        have hshape : mkStatsLine (d :: ds') ns ms
            = ((d :: ds') ++ [' ']) ++ (FILES_MARK.data ++ (((", ").data) ++
              (ns ++ (INS_PAD.data ++ (ms ++ DEL_PAD.data))))) := by
          have hfp : FILES_PAD.data = ' ' :: (FILES_MARK.data ++ ((", ").data)) := by decide
          simp [mkStatsLine, hfp, List.append_assoc]
        rw [hshape, containsL_here FILES_MARK.data _ _]
        rfl
      have hfind : (pySplit '\n' (pyStrip (mkStatsLine (d :: ds') ns ms))).find? isStatsLine
          = some (mkStatsLine (d :: ds') ns ms) := by
        rw [hstrip, hsplit]
        exact List.find?_cons_of_pos [] hstats
      have hb1 : (FILES_PAD.data ++ (ns ++ (INS_PAD.data ++
          (ms ++ DEL_PAD.data)))).takeWhile isDigitCh = [] := by
        rw [takeWhile_concrete_stop isDigitCh FILES_PAD.data _ (by decide)]
        decide
      have hdrop1 : (FILES_PAD.data ++ (ns ++ (INS_PAD.data ++
          (ms ++ DEL_PAD.data)))).dropWhile isPySpace
          = (("files changed, ").data) ++ (ns ++ (INS_PAD.data ++ (ms ++ DEL_PAD.data))) := by
        rw [dropWhile_concrete_stop isPySpace FILES_PAD.data _ (by decide),
          show FILES_PAD.data.dropWhile isPySpace = (("files changed, ").data) from by decide]
      have hb2 : (INS_PAD.data ++ (ms ++ DEL_PAD.data)).takeWhile isDigitCh = [] := by
        rw [takeWhile_concrete_stop isDigitCh INS_PAD.data _ (by decide)]
        decide
      have hsp2 : ((INS_PAD.data ++ (ms ++ DEL_PAD.data)).takeWhile isPySpace).isEmpty
          = false := by
        rw [takeWhile_concrete_stop isPySpace INS_PAD.data _ (by decide)]
        decide
      have hdrop2 : (INS_PAD.data ++ (ms ++ DEL_PAD.data)).dropWhile isPySpace
          = (("insertions(+), ").data) ++ (ms ++ DEL_PAD.data) := by
        rw [dropWhile_concrete_stop isPySpace INS_PAD.data _ (by decide),
          show INS_PAD.data.dropWhile isPySpace = (("insertions(+), ").data) from by decide]
      have hinsv : searchNum INS_WORD.data (mkStatsLine (d :: ds') ns ms)
          = some (digitsVal ns) := by
        rw [hassoc,
          searchNum_digits_skip INS_WORD.data (d :: ds') _ hdd hb1
            (Or.inr (by
              rw [hdrop1]
              exact isPfxOf_eq_false_of_misMatch INS_WORD.data
                ((("files changed, ").data)) (by decide) _)),
          searchNum_append_nondigit INS_WORD.data FILES_PAD.data _ (by decide)]
        refine searchNum_digits_hit INS_WORD.data ns _ hns hnd hb2 hsp2 ?_
        rw [hdrop2,
          show (("insertions(+), ").data) = INS_WORD.data ++ (("s(+), ").data) from by decide,
          List.append_assoc]
        exact isPfxOf_append_self INS_WORD.data _
      have hdelv : searchNum DEL_WORD.data (mkStatsLine (d :: ds') ns ms)
          = some (digitsVal ms) := by
        rw [hassoc,
          searchNum_digits_skip DEL_WORD.data (d :: ds') _ hdd hb1
            (Or.inr (by
              rw [hdrop1]
              exact isPfxOf_eq_false_of_misMatch DEL_WORD.data
                ((("files changed, ").data)) (by decide) _)),
          searchNum_append_nondigit DEL_WORD.data FILES_PAD.data _ (by decide),
          searchNum_digits_skip DEL_WORD.data ns _ hnd hb2
            (Or.inr (by
              rw [hdrop2]
              exact isPfxOf_eq_false_of_misMatch DEL_WORD.data
                ((("insertions(+), ").data)) (by decide) _)),
          searchNum_append_nondigit DEL_WORD.data INS_PAD.data _ (by decide)]
        exact searchNum_digits_hit DEL_WORD.data ms DEL_PAD.data hms hmd
          (by decide) (by decide) (by decide)
      simp [parse_commit_stats, hne, hfind, hinsv, hdelv]

/-- Witness for C9: a malformed text parses to zeros; a concrete shortstat
line parses to its written counts. -/
theorem claim_C9_wit :
    parse_commit_stats (("hello world").data) = (0, 0) ∧
    parse_commit_stats (mkStatsLine (("2").data) (("15").data) (("3").data)) = (15, 3) := by
  constructor
  · exact claim_C9.1 (("hello world").data) (by decide)
  · exact (claim_C9.2.2 (("2").data) (("15").data) (("3").data) (by decide) (by decide)
      (by decide) (by decide) (by decide) (by decide)).trans (by decide)

/-- Counterexample for C10: the claim fails on the code: the style category
has the distinct label `🎨 Changed`, not `🔧 Changed`, and the 14 rendered
heading lines (label plus per-category description) are pairwise distinct,
so no two groups can ever share an identical heading line. -/
theorem claim_C10_cex :
    (COMMIT_TYPES.filter (fun e => e.1 == ("style" : String))).map (fun e => e.2.1)
      = [("🎨 Changed" : String)] ∧
    (("🎨 Changed" : String) ≠ ("🔧 Changed" : String)) ∧
    (COMMIT_TYPES.map headingLine).Nodup :=
  ⟨by decide, by decide, by decide⟩

/-- Claim C10 (amended): refactor, chore, build and ci share the heading
label `🔧 Changed` (style uses `🎨 Changed`), but every rendered heading
line appends the distinct per-category description, so all 14 heading lines
differ; a render with a refactor and a chore commit shows two groups with
the same label but different heading lines. -/
theorem claim_C10_amended :
    ((COMMIT_TYPES.filter (fun e => e.2.1 == ("🔧 Changed" : String))).map (fun e => e.1)
      = ["refactor", "chore", "build", "ci"]) ∧
    (COMMIT_TYPES.map headingLine).Nodup ∧
    generate_release_section ("v1") [⟨"refactor: tidy", 0, 0⟩, ⟨"chore: misc", 0, 0⟩]
        ("2024-01-01")
      = ("## [v1] - 2024-01-01\n\n### 🔧 Changed Code refactoring and restructuring\n- Tidy\n\n### 🔧 Changed Maintenance tasks and chores\n- Misc\n\n**Total Changes:** 2 commits\n\n---\n\n") :=
  ⟨by decide, by decide, by decide⟩

end ChangelogSpec
